import Mathlib

open scoped List

/-!
Verification of the docker-registry-checker probing engine.

A shallow embedding of the Go program `main.go` (package main of
YMingPro/docker-registry-checker) together with proofs of the specified
properties: probe-outcome classification, outcome invariants, input-list
parsing, report filtering/sorting, progress display, and the worker-pool
run modelled as a labelled transition system over the two buffered
channels (`jobs`, `results`), the worker goroutines, the closer goroutine
and the collecting main loop.
-/

/-- The outcome record of one probe.  Mirrors `type CheckResult struct`
(main.go:21-27): `Host string`, `Available bool`, `Time time.Duration`
(modelled as nanoseconds : Nat), `StatusCode int` (HTTP codes are
non-negative, modelled as Nat), `IsTimeout bool`.  A Go composite literal
`CheckResult{Host: host}` leaves the other fields at their zero values. -/
structure CheckResult where
  Host : String
  Available : Bool := false
  Time : Nat := 0
  StatusCode : Nat := 0
  IsTimeout : Bool := false
deriving DecidableEq, Repr

/-- The cause of a failed `client.Get` call, used to state the error
taxonomy of the spec (deadline exceeded vs DNS failure vs connection refused vs
TLS handshake failure).  This is ground truth about the network event,
not something the Go code inspects directly. -/
inductive ErrCause where
  | deadlineExceeded
  | dnsFailure
  | connRefused
  | tlsFailure
  | other
deriving DecidableEq, Repr

/-- Model of the non-nil `error` returned by `client.Get` (main.go:227).
`cause` is the ground-truth failure cause; `msg` models `err.Error()`
(for `http.Client.Get` this is the `*url.Error` rendering
`fmt.Sprintf("%s %q: %s", Op, URL, Err)`, which embeds the request URL);
`timeoutFlag` models the value of `os.IsTimeout(err)`. -/
structure GoError where
  cause : ErrCause
  msg : String
  timeoutFlag : Bool
deriving DecidableEq, Repr

/-- Result of one `client.Get(url)` call: either an error (no response),
or a response carrying a status code, with `elapsed` the wall-clock
nanoseconds measured by `time.Since(start)` (main.go:239). -/
inductive ProbeResult where
  | failure (err : GoError)
  | success (statusCode : Nat) (elapsed : Nat)
deriving DecidableEq, Repr

/-- `containsSub pat hay` decides whether `pat` occurs as a contiguous
sublist of `hay`.  Models the Go function `strings.Contains` (byte substring of
UTF-8 strings; for the ASCII pattern "timeout" used by the code a
byte-level match always falls on rune boundaries, so char-level and
byte-level containment agree). -/
def containsSub (pat : List Char) : List Char → Bool
  | [] => pat.isPrefixOf []
  | a :: t => pat.isPrefixOf (a :: t) || containsSub pat t

/-- Model of `strings.Contains s pat`. -/
def strContains (s pat : String) : Bool := containsSub pat.toList s.toList

/-- One iteration of the worker loop body (main.go:220-244): build
`result := CheckResult{Host: host}` (all other fields zero), perform the
GET; on error set `Available = false` (already its zero value) and
`IsTimeout = os.IsTimeout(err) || strings.Contains(err.Error(), "timeout")`
(main.go:231); on a response set `StatusCode`, `Time`, and
`Available = (200 <= code && code < 400) || code == 401` (main.go:240). -/
def checkHost (host : String) (res : ProbeResult) : CheckResult :=
  match res with
  | .failure err =>
      { Host := host
        Available := false
        IsTimeout := err.timeoutFlag || strContains err.msg "timeout" }
  | .success code elapsed =>
      { Host := host
        StatusCode := code
        Time := elapsed
        Available := (200 ≤ code && code < 400) || code == 401
        IsTimeout := false }

/-- Well-formedness of a Go error produced by `client.Get` on
`https://{host}/v2/`, recording facts of the Go standard library:
a deadline-exceeded (configured client timeout) error satisfies
`os.IsTimeout`; DNS / connection-refused / TLS-handshake failures do
not; and the `*url.Error` message always embeds the request URL. -/
def GoError.WF (host : String) (e : GoError) : Prop :=
  (e.cause = .deadlineExceeded → e.timeoutFlag = true)
  ∧ ((e.cause = .dnsFailure ∨ e.cause = .connRefused ∨ e.cause = .tlsFailure) →
      e.timeoutFlag = false)
  ∧ strContains e.msg ("https://" ++ host ++ "/v2/") = true

/-- A concrete deadline-exceeded error as produced by `net/http` when the
configured `client.Timeout` expires. -/
def deadlineErr : GoError :=
  { cause := .deadlineExceeded
    msg := "Get \"https://mirror-b.example/v2/\": context deadline exceeded (Client.Timeout exceeded while awaiting headers)"
    timeoutFlag := true }

/-- A concrete DNS failure for a host whose name contains the substring
"timeout": `os.IsTimeout` is false, but the `url.Error` message embeds
the URL and hence the substring "timeout". -/
def dnsErrTimeoutName : GoError :=
  { cause := .dnsFailure
    msg := "Get \"https://timeout.example/v2/\": dial tcp: lookup timeout.example: no such host"
    timeoutFlag := false }

/-- A concrete connection-refused failure with no "timeout" in the text. -/
def connRefusedErr : GoError :=
  { cause := .connRefused
    msg := "Get \"https://mirror-a.example/v2/\": dial tcp 192.0.2.1:443: connect: connection refused"
    timeoutFlag := false }

/-- C2: for every probe that obtains a response, `Available` is true iff
the status code is in [200,400) or equals 401; for every probe that fails
with no response, `StatusCode = 0` and `Available = false`. -/
theorem probe_classification :
    (∀ (host : String) (code elapsed : Nat),
      (checkHost host (.success code elapsed)).Available = true ↔
        ((200 ≤ code ∧ code < 400) ∨ code = 401))
    ∧ (∀ (host : String) (err : GoError),
      (checkHost host (.failure err)).StatusCode = 0
      ∧ (checkHost host (.failure err)).Available = false) := by
  constructor
  · intro host code elapsed
    simp only [checkHost, Bool.or_eq_true, Bool.and_eq_true, decide_eq_true_eq,
      beq_iff_eq]
  · intro host err
    exact ⟨rfl, rfl⟩

/-- C3 counterexample: the claim "timedOut = true iff the failure is a
deadline-exceeded (configured-timeout) failure; DNS failure yields
timedOut = false" is false for the code: for the host
"timeout.example", the `err.Error()` text of a DNS failure embeds the request URL
and therefore contains the substring "timeout", so main.go:231 sets
`IsTimeout = true` even though the cause is a DNS failure. -/
theorem timeout_flag_counterexample :
    ¬ (∀ (host : String) (e : GoError), GoError.WF host e →
        ((checkHost host (.failure e)).IsTimeout = true ↔
          e.cause = .deadlineExceeded)) := by
  intro h
  have hwf : GoError.WF "timeout.example" dnsErrTimeoutName := by
    refine ⟨?_, ?_, ?_⟩ <;> decide
  have := (h "timeout.example" dnsErrTimeoutName hwf).mp (by decide)
  exact absurd this (by decide)

/-- C3 amended: on every failed probe the worker records
`Available = false`, `StatusCode = 0`, `Time = 0` (left unset), and
`IsTimeout = os.IsTimeout(err) || strings.Contains(err.Error(), "timeout")`;
in particular a well-formed deadline-exceeded failure always yields
`IsTimeout = true`, and a well-formed DNS / connection-refused / TLS
failure whose message does not contain "timeout" yields
`IsTimeout = false`. -/
theorem timeout_flag_amended :
    ∀ (host : String) (e : GoError),
      (checkHost host (.failure e)).Available = false
      ∧ (checkHost host (.failure e)).StatusCode = 0
      ∧ (checkHost host (.failure e)).Time = 0
      ∧ (checkHost host (.failure e)).IsTimeout =
          (e.timeoutFlag || strContains e.msg "timeout")
      ∧ (GoError.WF host e → e.cause = .deadlineExceeded →
          (checkHost host (.failure e)).IsTimeout = true)
      ∧ (strContains e.msg "timeout" = false → e.timeoutFlag = false →
          (checkHost host (.failure e)).IsTimeout = false) := by
  intro host e
  refine ⟨rfl, rfl, rfl, rfl, ?_, ?_⟩
  · intro hwf hc
    simp [checkHost, hwf.1 hc]
  · intro h1 h2
    simp [checkHost, h1, h2]

/-- Closed instances of `timeout_flag_amended`: a concrete
deadline-exceeded failure yields `IsTimeout = true`, and a concrete
connection-refused failure yields `IsTimeout = false`. -/
theorem timeout_flag_amended_witness :
    (checkHost "mirror-b.example" (.failure deadlineErr)).IsTimeout = true
    ∧ (checkHost "mirror-a.example" (.failure connRefusedErr)).IsTimeout = false :=
  ⟨(timeout_flag_amended "mirror-b.example" deadlineErr).2.2.2.2.1
      (by refine ⟨?_, ?_, ?_⟩ <;> decide) (by decide),
   (timeout_flag_amended "mirror-a.example" connRefusedErr).2.2.2.2.2
      (by decide) (by decide)⟩

/-- C4: every outcome the worker can produce satisfies both invariants:
`Available` and `IsTimeout` are never simultaneously true, and
`StatusCode = 0` implies `Available = false`. -/
theorem outcome_invariants :
    ∀ (host : String) (res : ProbeResult),
      ((checkHost host res).Available && (checkHost host res).IsTimeout) = false
      ∧ ((checkHost host res).StatusCode = 0 →
          (checkHost host res).Available = false) := by
  intro host res
  cases res with
  | failure err =>
      exact ⟨rfl, fun _ => rfl⟩
  | success code elapsed =>
      refine ⟨by simp [checkHost], ?_⟩
      intro h0
      have : code = 0 := h0
      subst this
      simp [checkHost]

/-- Closed instance of `outcome_invariants` at a failed probe with
status code 0, discharging the `StatusCode = 0` hypothesis. -/
theorem outcome_invariants_witness :
    ((checkHost "mirror-a.example" (.failure connRefusedErr)).Available &&
        (checkHost "mirror-a.example" (.failure connRefusedErr)).IsTimeout) = false
    ∧ (checkHost "mirror-a.example" (.failure connRefusedErr)).Available = false :=
  ⟨(outcome_invariants "mirror-a.example" (.failure connRefusedErr)).1,
   (outcome_invariants "mirror-a.example" (.failure connRefusedErr)).2 (by decide)⟩

/-- The StatusCode column of one report row (main.go:389-392):
`fmt.Sprintf("%d", StatusCode)`, replaced by "-" when the code is 0. -/
def statusCodeCell (r : CheckResult) : String :=
  if r.StatusCode = 0 then "-" else toString r.StatusCode

/-- The literal printed in the ResponseTime column for a timed-out probe
(main.go:394). -/
def timeoutLiteral : String := "超时"

/-- `fmt.Sprintf("%.2fs", Time.Seconds())` (main.go:396): the duration in
nanoseconds rendered as seconds with two decimals and an "s" suffix.
Rounding to centiseconds is modelled half-up (the Go verb `%.2f` rounds
half-to-even; the two agree except on exact ties, which no property here
depends on). -/
def formatSeconds (ns : Nat) : String :=
  let cs := (ns + 5000000) / 10000000
  toString (cs / 100) ++ "." ++
    (if cs % 100 < 10 then "0" ++ toString (cs % 100) else toString (cs % 100)) ++ "s"

/-- The ResponseTime column of one report row (main.go:394-397):
the timeout literal when `IsTimeout`, otherwise the formatted seconds. -/
def timeCell (r : CheckResult) : String :=
  if r.IsTimeout then timeoutLiteral else formatSeconds r.Time

/-- A string ending in the character "s" is never the timeout literal. -/
theorem append_s_ne_timeoutLiteral (s : String) : s ++ "s" ≠ timeoutLiteral := by
  intro h
  have hd : (s ++ "s").data = timeoutLiteral.data := congrArg String.data h
  rw [String.data_append] at hd
  have h2 : s.data ++ ['s'] = ['超', '时'] := hd
  have h3 : (s.data ++ ['s']).getLast? = (['超', '时'] : List Char).getLast? := by
    rw [h2]
  rw [List.getLast?_concat] at h3
  simp at h3

/-- The formatted-seconds string is never the timeout literal. -/
theorem formatSeconds_ne_timeoutLiteral (ns : Nat) :
    formatSeconds ns ≠ timeoutLiteral := by
  unfold formatSeconds
  exact append_s_ne_timeoutLiteral _

/-- C9: every outcome with `IsTimeout = true` was produced in the error
branch, so its `StatusCode` and `Time` keep their zero values and its
report row shows "-" in the StatusCode column; conversely a report row
shows the timeout literal only when `IsTimeout` is set, so every row
showing the timeout literal shows "-" as its status code. -/
theorem timeout_row_shows_dash :
    ∀ (host : String) (res : ProbeResult),
      ((checkHost host res).IsTimeout = true →
        (checkHost host res).StatusCode = 0
        ∧ (checkHost host res).Time = 0
        ∧ timeCell (checkHost host res) = timeoutLiteral
        ∧ statusCodeCell (checkHost host res) = "-")
      ∧ (timeCell (checkHost host res) = timeoutLiteral →
          statusCodeCell (checkHost host res) = "-") := by
  intro host res
  have key : (checkHost host res).IsTimeout = true →
      (checkHost host res).StatusCode = 0
      ∧ (checkHost host res).Time = 0
      ∧ timeCell (checkHost host res) = timeoutLiteral
      ∧ statusCodeCell (checkHost host res) = "-" := by
    intro ht
    cases res with
    | failure err =>
        exact ⟨rfl, rfl, by simp [timeCell, ht], by simp [statusCodeCell, checkHost]⟩
    | success code elapsed =>
        exact absurd ht (by simp [checkHost])
  refine ⟨key, ?_⟩
  intro hcell
  by_cases ht : (checkHost host res).IsTimeout = true
  · exact (key ht).2.2.2
  · exfalso
    have hf : (checkHost host res).IsTimeout = false := by
      simpa using ht
    have : timeCell (checkHost host res) = formatSeconds (checkHost host res).Time := by
      simp [timeCell, hf]
    rw [this] at hcell
    exact formatSeconds_ne_timeoutLiteral _ hcell

/-- Closed instance of `timeout_row_shows_dash` at a concrete
deadline-exceeded failure, discharging both hypotheses. -/
theorem timeout_row_shows_dash_witness :
    ((checkHost "mirror-b.example" (.failure deadlineErr)).StatusCode = 0
      ∧ (checkHost "mirror-b.example" (.failure deadlineErr)).Time = 0
      ∧ timeCell (checkHost "mirror-b.example" (.failure deadlineErr)) = timeoutLiteral
      ∧ statusCodeCell (checkHost "mirror-b.example" (.failure deadlineErr)) = "-")
    ∧ statusCodeCell (checkHost "mirror-b.example" (.failure deadlineErr)) = "-" :=
  ⟨(timeout_row_shows_dash "mirror-b.example" (.failure deadlineErr)).1 (by decide),
   (timeout_row_shows_dash "mirror-b.example" (.failure deadlineErr)).2 (by decide)⟩

/-- The line predicate of the reading loop (main.go:307-312): after
trimming, keep the line iff it is non-empty and does not start with the
comment marker "#".  A trimmed line starts with "#" exactly when the
first non-whitespace character of the original line is "#". -/
def keepLine (host : String) : Bool := host != "" && !host.startsWith "#"

/-- The host-reading loop of `main` (main.go:305-312): scan the lines in
order, trim each (`strings.TrimSpace`, modelled by `String.trim`), and
append it to `hosts` when `keepLine` holds. -/
def parseHosts (lines : List String) : List String :=
  lines.foldl (fun hosts line =>
    let host := line.trim
    if keepLine host then hosts ++ [host] else hosts) []

/-- The empty-input gate of `main` (main.go:320-324): when the parsed
host list is empty the run fails ("docker.txt 文件为空或没有有效的主机地址")
and no probing is performed, otherwise probing proceeds on the list. -/
def selectHosts (lines : List String) : Option (List String) :=
  let hosts := parseHosts lines
  if hosts.length = 0 then none else some hosts

/-- Generalisation of the reading loop: folding from any accumulator
appends exactly the trimmed kept lines, in their original order. -/
theorem parseHosts_foldl (lines : List String) :
    ∀ acc : List String,
      lines.foldl (fun hosts line =>
        let host := line.trim
        if keepLine host then hosts ++ [host] else hosts) acc =
      acc ++ (lines.map String.trim).filter keepLine := by
  induction lines with
  | nil => intro acc; simp
  | cons line rest ih =>
      intro acc
      by_cases hc : keepLine line.trim = true
      · simp only [List.foldl_cons, List.map_cons, List.filter_cons, hc, if_pos hc]
        rw [ih]
        simp
      · have hc' : keepLine line.trim = false := by
          simpa using hc
        simp only [List.foldl_cons, List.map_cons, List.filter_cons, hc']
        rw [ih]
        simp

/-- C5: parsing keeps exactly the lines that are non-empty after trimming
and whose trimmed form does not start with "#", each trimmed and used
verbatim, preserving original order and duplicates; the run fails with
the empty-input condition (no probing) iff every line is dropped. -/
theorem parse_input_lines :
    ∀ lines : List String,
      parseHosts lines = (lines.map String.trim).filter keepLine
      ∧ (selectHosts lines = none ↔ parseHosts lines = [])
      ∧ (parseHosts lines = [] ↔
          ∀ line ∈ lines, line.trim = "" ∨ line.trim.startsWith "#" = true)
      ∧ (selectHosts lines = none
          ∨ selectHosts lines = some (parseHosts lines)) := by
  intro lines
  refine ⟨parseHosts_foldl lines [], ?_, ?_, ?_⟩
  · constructor
    · intro h
      by_cases hl : parseHosts lines = []
      · exact hl
      · exfalso
        have : (parseHosts lines).length ≠ 0 := by
          simpa [List.length_eq_zero] using hl
        simp [selectHosts, this] at h
    · intro h
      simp [selectHosts, h]
  · have hp : parseHosts lines = (lines.map String.trim).filter keepLine :=
      parseHosts_foldl lines []
    rw [hp]
    simp only [List.filter_eq_nil_iff]
    constructor
    · intro h line hline
      have := h line.trim (List.mem_map_of_mem String.trim hline)
      by_cases he : line.trim = ""
      · exact Or.inl he
      · right
        simp [keepLine, he] at this
        exact this
    · intro h t ht
      obtain ⟨line, hline, rfl⟩ := List.mem_map.mp ht
      rcases h line hline with he | hs
      · simp [keepLine, he]
      · simp [keepLine, hs]
  · by_cases hl : (parseHosts lines).length = 0
    · exact Or.inl (by simp [selectHosts, hl])
    · exact Or.inr (by simp [selectHosts, hl])

/-- The success predicate used both for the "-l" display filter
(main.go:366) and for the summary counters (main.go:411, 417):
`result.Available && !result.IsTimeout`. -/
def isSuccessResult (r : CheckResult) : Bool := r.Available && !r.IsTimeout

/-- The "-l" filtering step (main.go:362-372): with the flag set, keep
only successful results; otherwise display everything. -/
def filterDisplay (listSuccess : Bool) (rs : List CheckResult) : List CheckResult :=
  if listSuccess then rs.filter isSuccessResult else rs

/-- The comparison underlying `sort.Slice(displayResults, ...)` with
`less i j = Host i < Host j` (main.go:375-377): the sorted output is
non-decreasing under this `≤` on `Host`. -/
def hostLe (a b : CheckResult) : Bool := decide (a.Host ≤ b.Host)

/-- The sorting step (main.go:374-377).  The Go function `sort.Slice` guarantees a
permutation of the input that is non-decreasing under the comparison; it
is modelled deterministically by stable merge sort with `hostLe`. -/
def sortByHost (rs : List CheckResult) : List CheckResult :=
  rs.mergeSort hostLe

/-- The full display pipeline (main.go:362-377): filter according to the
"-l" flag, then sort by host name. -/
def displayResults (listSuccess : Bool) (rs : List CheckResult) : List CheckResult :=
  sortByHost (filterDisplay listSuccess rs)

/-- `hostLe` is transitive. -/
theorem hostLe_trans : ∀ a b c : CheckResult,
    hostLe a b → hostLe b c → hostLe a c := by
  intro a b c hab hbc
  simp only [hostLe, decide_eq_true_eq] at *
  exact le_trans hab hbc

/-- `hostLe` is total. -/
theorem hostLe_total : ∀ a b : CheckResult, hostLe a b || hostLe b a := by
  intro a b
  simp only [hostLe, Bool.or_eq_true, decide_eq_true_eq]
  exact le_total _ _

/-- A list that splits as a `P = false` block followed by a `P = true`
block does so in exactly one way. -/
theorem split_unique {α : Type} (P : α → Bool) :
    ∀ {x₁ : List α} {y₁ x₂ y₂ : List α},
      x₁ ++ y₁ = x₂ ++ y₂ →
      (∀ b ∈ x₁, P b = false) → (∀ b ∈ y₁, P b = true) →
      (∀ b ∈ x₂, P b = false) → (∀ b ∈ y₂, P b = true) →
      x₁ = x₂ ∧ y₁ = y₂ := by
  intro x₁
  induction x₁ with
  | nil =>
      intro y₁ x₂ y₂ heq _ hy₁ hx₂ _
      cases x₂ with
      | nil => exact ⟨rfl, heq⟩
      | cons b x₂' =>
          exfalso
          have hb : b ∈ y₁ := by
            rw [List.nil_append] at heq
            rw [heq]
            exact List.mem_append_left _ (List.mem_cons_self b x₂')
          have := hy₁ b hb
          have := hx₂ b (List.mem_cons_self b x₂')
          simp_all
  | cons a x₁' ih =>
      intro y₁ x₂ y₂ heq hx₁ hy₁ hx₂ hy₂
      cases x₂ with
      | nil =>
          exfalso
          have ha : a ∈ y₂ := by
            rw [List.nil_append] at heq
            rw [← heq]
            exact List.mem_cons_self a _
          have := hy₂ a ha
          have := hx₁ a (List.mem_cons_self a x₁')
          simp_all
      | cons b x₂' =>
          simp only [List.cons_append, List.cons.injEq] at heq
          obtain ⟨rfl, htl⟩ := heq
          obtain ⟨h1, h2⟩ := ih htl
            (fun c hc => hx₁ c (List.mem_cons_of_mem _ hc)) hy₁
            (fun c hc => hx₂ c (List.mem_cons_of_mem _ hc)) hy₂
          exact ⟨by rw [h1], h2⟩

/-- Stability of merge sort with respect to filtering: for a transitive,
total comparison, sorting a filtered list gives the same list as
filtering the sorted list. -/
theorem mergeSort_filter_comm {α : Type} (le : α → α → Bool)
    (htrans : ∀ a b c : α, le a b → le b c → le a c)
    (htotal : ∀ a b : α, le a b || le b a)
    (p : α → Bool) :
    ∀ l : List α, (l.filter p).mergeSort le = (l.mergeSort le).filter p := by
  intro l
  induction l with
  | nil => simp
  | cons a l ih =>
      obtain ⟨l₁, l₂, h₁, h₂, h₃⟩ := List.mergeSort_cons htrans htotal a l
      have hl₂ : ∀ c ∈ l₂, le a c = true := by
        have s₁ : (l₁ ++ a :: l₂).Pairwise (fun x y => le x y) := by
          rw [← h₁]
          exact List.sorted_mergeSort htrans htotal (a :: l)
        have := s₁.sublist (List.sublist_append_right l₁ (a :: l₂))
        exact (List.pairwise_cons.mp this).1
      by_cases hp : p a = true
      · obtain ⟨m₁, m₂, g₁, g₂, g₃⟩ :=
          List.mergeSort_cons htrans htotal a (l.filter p)
        have hm₂ : ∀ c ∈ m₂, le a c = true := by
          have s₂ : (m₁ ++ a :: m₂).Pairwise (fun x y => le x y) := by
            rw [← g₁]
            exact List.sorted_mergeSort htrans htotal (a :: l.filter p)
          have := s₂.sublist (List.sublist_append_right m₁ (a :: m₂))
          exact (List.pairwise_cons.mp this).1
        have hmm : m₁ ++ m₂ = l₁.filter p ++ l₂.filter p := by
          rw [← g₂, ih, h₂, List.filter_append]
        obtain ⟨e₁, e₂⟩ := split_unique (fun b => le a b) hmm
          (fun b hb => by simpa using g₃ b hb)
          hm₂
          (fun b hb => by simpa using h₃ b (List.mem_of_mem_filter hb))
          (fun b hb => hl₂ b (List.mem_of_mem_filter hb))
        have lhs : ((a :: l).filter p).mergeSort le = m₁ ++ a :: m₂ := by
          rw [List.filter_cons_of_pos hp]
          exact g₁
        rw [lhs, h₁, e₁, e₂, List.filter_append, List.filter_cons_of_pos hp]
      · have hp' : p a = false := by simpa using hp
        have lhs : ((a :: l).filter p).mergeSort le = (l.mergeSort le).filter p := by
          rw [List.filter_cons_of_neg (by simp [hp']), ih]
        rw [lhs, h₁, h₂, List.filter_append, List.filter_append,
          List.filter_cons_of_neg (by simp [hp'])]

/-- C7: for every collected result list, in whatever order the outcomes
arrived, the rows of the report are sorted lexicographically non-decreasing
by host, and are a permutation of the (filtered) collected outcomes. -/
theorem report_rows_sorted :
    ∀ (listSuccess : Bool) (rs : List CheckResult),
      List.Sorted (fun a b : CheckResult => a.Host ≤ b.Host)
        (displayResults listSuccess rs)
      ∧ (displayResults listSuccess rs).Perm (filterDisplay listSuccess rs) := by
  intro listSuccess rs
  constructor
  · have h := List.sorted_mergeSort hostLe_trans hostLe_total
      (filterDisplay listSuccess rs)
    exact h.imp (fun hab => by simpa [hostLe] using hab)
  · exact List.mergeSort_perm _ _

/-- C6: the "successes only" view equals the full sorted view filtered to
the outcomes with `Available && !IsTimeout`: it is a subset of the full
view containing exactly the successful outcomes, in the same
ascending-by-host order, even though the code filters before sorting. -/
theorem success_only_view :
    ∀ rs : List CheckResult,
      displayResults true rs = (displayResults false rs).filter isSuccessResult := by
  intro rs
  simp only [displayResults, filterDisplay, if_pos, sortByHost]
  exact mergeSort_filter_comm hostLe hostLe_trans hostLe_total isSuccessResult rs

/-- The percentage printed by `showProgress` (main.go:254-261), in tenths
of a percent: `percentage := float64(current) / float64(total)` printed
as `%.1f` of `percentage*100`.  The exact value `1000*current/total` is
rendered to one decimal, modelled by round-half-up integer arithmetic
(`%.1f` rounds half-to-even; the two differ only on exact ties, on which
no property here depends).  `main` calls this with
`(resultCount, len(hosts))` after every received result (main.go:356-360). -/
def progressTenths (current total : Nat) : Nat :=
  (2000 * current + total) / (2 * total)

/-- C8: the rendered progress percentage is monotone in the completed
count, and equals exactly 100.0 percent (1000 tenths) when
`completed = total`; hence over a run of `total` dispatched endpoints the
rendered sequence is non-decreasing and ends at 100.0 at the last
recorded outcome. -/
theorem progress_monotone_complete :
    (∀ total c c' : Nat, c ≤ c' →
      progressTenths c total ≤ progressTenths c' total)
    ∧ (∀ total : Nat, 0 < total → progressTenths total total = 1000) := by
  constructor
  · intro total c c' hcc
    apply Nat.div_le_div_right
    have : 2000 * c ≤ 2000 * c' := Nat.mul_le_mul_left _ hcc
    omega
  · intro total ht
    unfold progressTenths
    apply Nat.div_eq_of_lt_le <;> omega

/-- Closed instance of `progress_monotone_complete` on a run of four
endpoints: progress after the first outcome is at most progress after
the third, and after the fourth it is exactly 100.0 percent. -/
theorem progress_monotone_complete_witness :
    progressTenths 1 4 ≤ progressTenths 3 4 ∧ progressTenths 4 4 = 1000 :=
  ⟨progress_monotone_complete.1 4 1 3 (by decide),
   progress_monotone_complete.2 4 (by decide)⟩

/-- A job in the `jobs` channel: a host string, instrumented (ghost) with
its position in the parsed host list so that "each endpoint, duplicates
included, is processed exactly once" is expressible. -/
abbrev Job := Nat × String

/-- The status of one worker goroutine (main.go:206-245): blocked on
`for host := range jobs` (`idle`), probing one received host (`busy`),
or returned after the range loop ended (`done`). -/
inductive WStatus where
  | idle
  | busy (job : Job)
  | done
deriving DecidableEq, Repr

/-- The run parameters: the parsed host list, the `-workers` flag value
(`numWorkers`, a Go `int`, possibly non-positive), and an oracle fixing
the network outcome of probing job `i` (its host); indexing the oracle by
position lets duplicate endpoints receive independent outcomes. -/
structure RunConfig where
  hosts : List String
  numWorkers : Int
  oracle : Nat → String → ProbeResult

/-- The outcome a worker pushes for job `j` (main.go:222-243), paired
with the ghost index. -/
def outcomeOf (cfg : RunConfig) (j : Job) : Nat × CheckResult :=
  (j.1, checkHost j.2 (cfg.oracle j.1 j.2))

/-- One outcome per dispatched endpoint, in dispatch order. -/
def expectedOutcomes (cfg : RunConfig) : List (Nat × CheckResult) :=
  cfg.hosts.enum.map (outcomeOf cfg)

/-- Global state of the run (main.go:327-360): `toSend` — hosts the main
goroutine has not yet sent into `jobs`; `jobsBuf` — contents of the
buffered `jobs` channel (capacity `len(hosts)`); `jobsClosed` — whether
`close(jobs)` has run; `workers` — status of each spawned worker
goroutine; `resultsBuf` — contents of the buffered `results` channel
(capacity `len(hosts)`); `resultsClosed` — whether the closer goroutine
(`wg.Wait(); close(results)`) has run; `collected` — `allResults` as
accumulated by the receiving loop. -/
structure PoolState where
  toSend : List Job
  jobsBuf : List Job
  jobsClosed : Bool
  workers : List WStatus
  resultsBuf : List (Nat × CheckResult)
  resultsClosed : Bool
  collected : List (Nat × CheckResult)
deriving Repr

/-- Initial state: nothing sent, channels empty and open,
`numWorkers` goroutines spawned idle (a non-positive `-workers` value
makes the spawn loop `for i := 0; i < numWorkers; i++` run zero times),
nothing collected. -/
def poolInit (cfg : RunConfig) : PoolState :=
  { toSend := cfg.hosts.enum
    jobsBuf := []
    jobsClosed := false
    workers := List.replicate cfg.numWorkers.toNat .idle
    resultsBuf := []
    resultsClosed := false
    collected := [] }

/-- Interleaving semantics of the run, one constructor per atomic event.

* `send` — the send loop of main `jobs <- host` (main.go:338-340): succeeds
  immediately while the buffer has room (capacity `len(hosts)`).
* `closeJobs` — `close(jobs)` (main.go:341), after all sends.
* `take` — an idle worker receives a buffered job from `jobs`.
* `finish` — a busy worker completes its probe and pushes the outcome
  into `results` (buffered, capacity `len(hosts)`).
* `exitW` — the `range jobs` loop of an idle worker ends: only once `jobs`
  is closed and drained.
* `closeResults` — the closer goroutine spawned after the send loop
  (main.go:348-351) observes `wg.Wait()` (all workers returned) and runs
  `close(results)`.
* `recv` — the collection loop of main `for result := range results`
  (main.go:356-360, runs after the send loop) receives one outcome. -/
inductive PoolStep (cfg : RunConfig) : PoolState → PoolState → Prop where
  | send (s : PoolState) (j : Job) (rest : List Job)
      (hs : s.toSend = j :: rest)
      (hcap : s.jobsBuf.length < cfg.hosts.length) :
      PoolStep cfg s { s with toSend := rest, jobsBuf := s.jobsBuf ++ [j] }
  | closeJobs (s : PoolState)
      (hs : s.toSend = [])
      (hc : s.jobsClosed = false) :
      PoolStep cfg s { s with jobsClosed := true }
  | take (s : PoolState) (k : Nat) (j : Job) (rest : List Job)
      (hw : s.workers[k]? = some .idle)
      (hb : s.jobsBuf = j :: rest) :
      PoolStep cfg s { s with jobsBuf := rest, workers := s.workers.set k (.busy j) }
  | finish (s : PoolState) (k : Nat) (j : Job)
      (hw : s.workers[k]? = some (.busy j))
      (hcap : s.resultsBuf.length < cfg.hosts.length) :
      PoolStep cfg s { s with resultsBuf := s.resultsBuf ++ [outcomeOf cfg j],
                              workers := s.workers.set k .idle }
  | exitW (s : PoolState) (k : Nat)
      (hw : s.workers[k]? = some .idle)
      (hc : s.jobsClosed = true)
      (hb : s.jobsBuf = []) :
      PoolStep cfg s { s with workers := s.workers.set k .done }
  | closeResults (s : PoolState)
      (hts : s.toSend = [])
      (hc : s.jobsClosed = true)
      (hall : ∀ w ∈ s.workers, w = .done)
      (hrc : s.resultsClosed = false) :
      PoolStep cfg s { s with resultsClosed := true }
  | recv (s : PoolState) (r : Nat × CheckResult) (rest : List (Nat × CheckResult))
      (hc : s.jobsClosed = true)
      (hb : s.resultsBuf = r :: rest) :
      PoolStep cfg s { s with resultsBuf := rest, collected := s.collected ++ [r] }

/-- Reachability from the initial state. -/
def PoolReach (cfg : RunConfig) (s : PoolState) : Prop :=
  Relation.ReflTransGen (PoolStep cfg) (poolInit cfg) s

/-- The run has completed: `close(results)` has happened and the
`for result := range results` loop of main has drained the channel and exited. -/
def PoolDone (s : PoolState) : Prop :=
  s.resultsClosed = true ∧ s.resultsBuf = []

/-- The jobs currently being probed by busy workers. -/
def inFlight (ws : List WStatus) : List Job :=
  ws.filterMap fun w => match w with | .busy j => some j | _ => none

/-- The summary counters (main.go:407-414): `totalCount = len(allResults)`
and `successCount` counts results with `Available && !IsTimeout`. -/
def totalCount (rs : List CheckResult) : Nat := rs.length

/-- See `totalCount`. -/
def successCount (rs : List CheckResult) : Nat :=
  (rs.filter isSuccessResult).length

/-- No job is in flight while every worker is idle. -/
theorem inFlight_replicate_idle (n : Nat) :
    inFlight (List.replicate n .idle) = [] := by
  induction n with
  | zero => rfl
  | succ m ih =>
      simp only [List.replicate_succ, inFlight, List.filterMap_cons]
      simp only [inFlight] at ih
      exact ih

/-- No job is in flight once every worker is done. -/
theorem inFlight_all_done (ws : List WStatus) (h : ∀ w ∈ ws, w = .done) :
    inFlight ws = [] := by
  induction ws with
  | nil => rfl
  | cons w t ih =>
      have hw : w = .done := h w (List.mem_cons_self w t)
      subst hw
      exact ih fun x hx => h x (List.mem_cons_of_mem _ hx)

/-- Taking a job: marking an idle worker busy adds that job to the
in-flight collection. -/
theorem inFlight_set_busy :
    ∀ (ws : List WStatus) (k : Nat) (j : Job), ws[k]? = some .idle →
      (inFlight (ws.set k (.busy j))).Perm (j :: inFlight ws) := by
  intro ws
  induction ws with
  | nil => intro k j h; simp at h
  | cons w t ih =>
      intro k j h
      cases k with
      | zero =>
          have hw : w = .idle := by simpa using h
          subst hw
          simp [inFlight]
      | succ m =>
          have h' : t[m]? = some .idle := by simpa using h
          have := ih m j h'
          cases w with
          | idle => simpa [inFlight] using this
          | done => simpa [inFlight] using this
          | busy j' =>
              simp only [List.set_cons_succ, inFlight, List.filterMap_cons]
              refine List.Perm.trans (List.Perm.cons j' this) ?_
              exact List.Perm.swap j j' _

/-- Finishing a job: marking a busy worker idle removes its job from the
in-flight collection. -/
theorem inFlight_set_idle :
    ∀ (ws : List WStatus) (k : Nat) (j : Job), ws[k]? = some (.busy j) →
      (inFlight ws).Perm (j :: inFlight (ws.set k .idle)) := by
  intro ws
  induction ws with
  | nil => intro k j h; simp at h
  | cons w t ih =>
      intro k j h
      cases k with
      | zero =>
          have hw : w = .busy j := by simpa using h
          subst hw
          simp [inFlight]
      | succ m =>
          have h' : t[m]? = some (.busy j) := by simpa using h
          have := ih m j h'
          cases w with
          | idle => simpa [inFlight] using this
          | done => simpa [inFlight] using this
          | busy j' =>
              simp only [List.set_cons_succ, inFlight, List.filterMap_cons]
              refine List.Perm.trans (List.Perm.cons j' this) ?_
              exact List.Perm.swap j j' _

/-- Retiring an idle worker leaves the in-flight collection unchanged. -/
theorem inFlight_set_done :
    ∀ (ws : List WStatus) (k : Nat), ws[k]? = some .idle →
      inFlight (ws.set k .done) = inFlight ws := by
  intro ws
  induction ws with
  | nil => intro k h; simp at h
  | cons w t ih =>
      intro k h
      cases k with
      | zero =>
          have hw : w = .idle := by simpa using h
          subst hw
          simp [inFlight]
      | succ m =>
          have h' : t[m]? = some .idle := by simpa using h
          have ih' := ih m h'
          simp only [inFlight] at ih'
          cases w <;>
            simp only [List.set_cons_succ, inFlight, List.filterMap_cons] <;>
            rw [ih']

/-- A done worker stays present when the status of some other
(idle or busy) worker is updated. -/
theorem done_mem_set :
    ∀ (ws : List WStatus) (k : Nat) (u v : WStatus), ws[k]? = some u →
      u ≠ .done → .done ∈ ws → .done ∈ ws.set k v := by
  intro ws
  induction ws with
  | nil => intro k u v h _ _; simp at h
  | cons w t ih =>
      intro k u v h hu hmem
      cases k with
      | zero =>
          have hw : w = u := by simpa using h
          subst hw
          rcases List.mem_cons.mp hmem with h1 | h1
          · exact absurd h1.symm hu
          · exact List.mem_cons_of_mem _ h1
      | succ m =>
          have h' : t[m]? = some u := by simpa using h
          rcases List.mem_cons.mp hmem with h1 | h1
          · exact h1 ▸ List.mem_cons_self _ _
          · exact List.mem_cons_of_mem _ (ih m u v h' hu h1)

/-- The multiset of all outcomes the run still owes or has produced:
outcomes of unsent, buffered and in-flight jobs, plus outcomes sitting in
the `results` channel, plus collected outcomes. -/
def stateOutcomes (cfg : RunConfig) (s : PoolState) : Multiset (Nat × CheckResult) :=
  ((s.toSend ++ s.jobsBuf ++ inFlight s.workers).map (outcomeOf cfg)
      : Multiset (Nat × CheckResult))
    + ((s.resultsBuf : Multiset (Nat × CheckResult))
      + (s.collected : Multiset (Nat × CheckResult)))


/-- `stateOutcomes` as the coercion of one concatenated list. -/
theorem stateOutcomes_coe (cfg : RunConfig) (s : PoolState) :
    stateOutcomes cfg s =
      (((s.toSend ++ s.jobsBuf ++ inFlight s.workers).map (outcomeOf cfg)
          ++ (s.resultsBuf ++ s.collected)
        : List (Nat × CheckResult)) : Multiset (Nat × CheckResult)) := by
  simp [stateOutcomes, Multiset.coe_add]

/-- Every step of the run conserves the outcome multiset: outcomes are
only ever moved between "not yet sent", "buffered in `jobs`",
"in flight", "buffered in `results`" and "collected". -/
theorem stateOutcomes_step {cfg : RunConfig} {s s' : PoolState}
    (h : PoolStep cfg s s') : stateOutcomes cfg s' = stateOutcomes cfg s := by
  cases h with
  | send j rest hs hcap =>
      rw [stateOutcomes_coe, stateOutcomes_coe, Multiset.coe_eq_coe]
      simp only [hs]
      refine List.Perm.append ?_ (List.Perm.refl _)
      refine List.Perm.map _ ?_
      calc rest ++ (s.jobsBuf ++ [j]) ++ inFlight s.workers
          = (rest ++ s.jobsBuf) ++ (j :: inFlight s.workers) := by simp
        _ ~ j :: ((rest ++ s.jobsBuf) ++ inFlight s.workers) := List.perm_middle
        _ = (j :: rest) ++ s.jobsBuf ++ inFlight s.workers := by simp
  | closeJobs hs hc => rfl
  | take k j rest hw hb =>
      rw [stateOutcomes_coe, stateOutcomes_coe, Multiset.coe_eq_coe]
      simp only [hb]
      refine List.Perm.append ?_ (List.Perm.refl _)
      refine List.Perm.map _ ?_
      have hf := inFlight_set_busy s.workers k j hw
      calc s.toSend ++ rest ++ inFlight (s.workers.set k (.busy j))
          ~ (s.toSend ++ rest) ++ (j :: inFlight s.workers) :=
            List.Perm.append_left _ hf
        _ ~ j :: ((s.toSend ++ rest) ++ inFlight s.workers) := List.perm_middle
        _ = j :: (s.toSend ++ (rest ++ inFlight s.workers)) := by simp
        _ ~ s.toSend ++ j :: (rest ++ inFlight s.workers) := List.perm_middle.symm
        _ = s.toSend ++ (j :: rest) ++ inFlight s.workers := by simp
  | finish k j hw hcap =>
      rw [stateOutcomes_coe, stateOutcomes_coe, Multiset.coe_eq_coe]
      have hf := inFlight_set_idle s.workers k j hw
      have hjob : s.toSend ++ s.jobsBuf ++ inFlight s.workers ~
          j :: (s.toSend ++ s.jobsBuf ++ inFlight (s.workers.set k .idle)) :=
        calc s.toSend ++ s.jobsBuf ++ inFlight s.workers
            ~ (s.toSend ++ s.jobsBuf) ++ (j :: inFlight (s.workers.set k .idle)) :=
              List.Perm.append_left _ hf
          _ ~ j :: (s.toSend ++ s.jobsBuf ++ inFlight (s.workers.set k .idle)) :=
              List.perm_middle
      have h1 : ((s.toSend ++ s.jobsBuf ++ inFlight (s.workers.set k .idle)).map
            (outcomeOf cfg)) ++ ((s.resultsBuf ++ [outcomeOf cfg j]) ++ s.collected) ~
          outcomeOf cfg j ::
            (((s.toSend ++ s.jobsBuf ++ inFlight (s.workers.set k .idle)).map
              (outcomeOf cfg)) ++ (s.resultsBuf ++ s.collected)) := by
        calc ((s.toSend ++ s.jobsBuf ++ inFlight (s.workers.set k .idle)).map
              (outcomeOf cfg)) ++ ((s.resultsBuf ++ [outcomeOf cfg j]) ++ s.collected)
            = ((s.toSend ++ s.jobsBuf ++ inFlight (s.workers.set k .idle)).map
              (outcomeOf cfg)) ++ (s.resultsBuf ++ (outcomeOf cfg j :: s.collected)) := by
              simp
          _ ~ ((s.toSend ++ s.jobsBuf ++ inFlight (s.workers.set k .idle)).map
              (outcomeOf cfg)) ++ (outcomeOf cfg j :: (s.resultsBuf ++ s.collected)) :=
              List.Perm.append_left _ List.perm_middle
          _ ~ outcomeOf cfg j ::
              (((s.toSend ++ s.jobsBuf ++ inFlight (s.workers.set k .idle)).map
                (outcomeOf cfg)) ++ (s.resultsBuf ++ s.collected)) := List.perm_middle
      have h2 : ((s.toSend ++ s.jobsBuf ++ inFlight s.workers).map (outcomeOf cfg))
            ++ (s.resultsBuf ++ s.collected) ~
          outcomeOf cfg j ::
            (((s.toSend ++ s.jobsBuf ++ inFlight (s.workers.set k .idle)).map
              (outcomeOf cfg)) ++ (s.resultsBuf ++ s.collected)) :=
        List.Perm.append (List.Perm.map _ hjob) (List.Perm.refl _)
      exact h1.trans h2.symm
  | exitW k hw hc hb =>
      simp only [stateOutcomes, inFlight_set_done s.workers k hw]
  | closeResults hts hc hall hrc => rfl
  | recv r rest hc hb =>
      rw [stateOutcomes_coe, stateOutcomes_coe, Multiset.coe_eq_coe]
      simp only [hb]
      refine List.Perm.append_left _ ?_
      calc rest ++ (s.collected ++ [r])
          = (rest ++ s.collected) ++ [r] := by simp
        _ ~ [r] ++ (rest ++ s.collected) := List.perm_append_comm
        _ = (r :: rest) ++ s.collected := by simp

/-- An element of `ws.set k v` other than `v` was already in `ws`. -/
theorem mem_of_mem_set :
    ∀ (ws : List WStatus) (k : Nat) (v a : WStatus),
      a ∈ ws.set k v → a ≠ v → a ∈ ws := by
  intro ws
  induction ws with
  | nil => intro k v a h _; simp at h
  | cons w t ih =>
      intro k v a h ha
      cases k with
      | zero =>
          rcases List.mem_cons.mp h with h1 | h1
          · exact absurd h1 ha
          · exact List.mem_cons_of_mem _ h1
      | succ m =>
          rcases List.mem_cons.mp h with h1 | h1
          · exact h1 ▸ List.mem_cons_self _ _
          · exact List.mem_cons_of_mem _ (ih m v a h1 ha)

/-- The run invariant: (1) the outcome multiset is conserved at the
expected outcomes; (2) `close(jobs)` happens only after all sends;
(3) a worker returns only once `jobs` is closed and drained, after which
the jobs buffer stays empty; (4) `close(results)` happens only after all
workers returned; (5) the worker count is fixed; (6) with zero workers
nothing is ever probed or collected and every job stays between `toSend`
and the jobs buffer. -/
def PoolInv (cfg : RunConfig) (s : PoolState) : Prop :=
  stateOutcomes cfg s = (expectedOutcomes cfg : Multiset (Nat × CheckResult))
  ∧ (s.jobsClosed = true → s.toSend = [])
  ∧ (WStatus.done ∈ s.workers → s.jobsBuf = [] ∧ s.jobsClosed = true)
  ∧ (s.resultsClosed = true →
      (∀ w ∈ s.workers, w = .done) ∧ s.jobsClosed = true ∧ s.toSend = [])
  ∧ s.workers.length = cfg.numWorkers.toNat
  ∧ (s.workers = [] → s.resultsBuf = [] ∧ s.collected = []
      ∧ s.toSend.length + s.jobsBuf.length = cfg.hosts.length)

/-- The initial state satisfies the invariant. -/
theorem poolInv_init (cfg : RunConfig) : PoolInv cfg (poolInit cfg) := by
  refine ⟨?_, ?_, ?_, ?_, ?_, ?_⟩
  · simp [stateOutcomes, poolInit, inFlight_replicate_idle, expectedOutcomes]
  · intro h; simp [poolInit] at h
  · intro h
    simp only [poolInit] at h
    rw [List.mem_replicate] at h
    exact absurd h.2 (by simp)
  · intro h; simp [poolInit] at h
  · simp [poolInit]
  · intro _
    refine ⟨rfl, rfl, ?_⟩
    simp [poolInit]

/-- Every step preserves the invariant. -/
theorem poolInv_step {cfg : RunConfig} {s s' : PoolState}
    (hinv : PoolInv cfg s) (hstep : PoolStep cfg s s') : PoolInv cfg s' := by
  obtain ⟨h1, h2, h3, h4, h5, h6⟩ := hinv
  have h1' : stateOutcomes cfg s' = (expectedOutcomes cfg : Multiset (Nat × CheckResult)) :=
    (stateOutcomes_step hstep).trans h1
  cases hstep with
  | send j rest hs hcap =>
      refine ⟨h1', ?_, ?_, ?_, by simpa using h5, ?_⟩
      · intro hc
        exact absurd (h2 hc) (by simp [hs])
      · intro hd
        exact absurd (h2 (h3 hd).2) (by simp [hs])
      · intro hrc
        exact absurd (h4 hrc).2.2 (by simp [hs])
      · intro hwnil
        obtain ⟨ha, hb', hc'⟩ := h6 hwnil
        refine ⟨ha, hb', ?_⟩
        rw [hs] at hc'
        simp only [List.length_cons, List.length_append, List.length_nil] at hc' ⊢
        omega
  | closeJobs hs hc =>
      refine ⟨h1', fun _ => hs, ?_, ?_, h5, ?_⟩
      · intro hd
        exact ⟨(h3 hd).1, rfl⟩
      · intro hrc
        exact ⟨(h4 hrc).1, rfl, hs⟩
      · intro hwnil
        exact h6 hwnil
  | take k j rest hw hb =>
      refine ⟨h1', h2, ?_, ?_, by simpa using h5, ?_⟩
      · intro hd
        have hd' : WStatus.done ∈ s.workers :=
          mem_of_mem_set s.workers k _ _ hd (by simp)
        exact absurd (h3 hd').1 (by simp [hb])
      · intro hrc
        have := (h4 hrc).1 .idle (List.getElem?_mem hw)
        exact absurd this (by simp)
      · intro hwnil
        rw [List.set_eq_nil_iff] at hwnil
        rw [hwnil] at hw
        simp at hw
  | finish k j hw hcap =>
      refine ⟨h1', h2, ?_, ?_, by simpa using h5, ?_⟩
      · intro hd
        have hd' : WStatus.done ∈ s.workers :=
          mem_of_mem_set s.workers k _ _ hd (by simp)
        exact h3 hd'
      · intro hrc
        have := (h4 hrc).1 (.busy j) (List.getElem?_mem hw)
        exact absurd this (by simp)
      · intro hwnil
        rw [List.set_eq_nil_iff] at hwnil
        rw [hwnil] at hw
        simp at hw
  | exitW k hw hc hb =>
      refine ⟨h1', h2, ?_, ?_, by simpa using h5, ?_⟩
      · intro _
        exact ⟨hb, hc⟩
      · intro hrc
        have := (h4 hrc).1 .idle (List.getElem?_mem hw)
        exact absurd this (by simp)
      · intro hwnil
        rw [List.set_eq_nil_iff] at hwnil
        rw [hwnil] at hw
        simp at hw
  | closeResults hts hc hall hrc =>
      exact ⟨h1', h2, h3, fun _ => ⟨hall, hc, hts⟩, h5, h6⟩
  | recv r rest hc hb =>
      refine ⟨h1', h2, h3, ?_, h5, ?_⟩
      · intro hrc
        exact h4 hrc
      · intro hwnil
        exact absurd (h6 hwnil).1 (by simp [hb])

/-- Every reachable state satisfies the invariant. -/
theorem poolInv_reach {cfg : RunConfig} {s : PoolState}
    (h : PoolReach cfg s) : PoolInv cfg s := by
  induction h with
  | refl => exact poolInv_init cfg
  | tail _ hstep ih => exact poolInv_step ih hstep

/-- In the state reached after terminating with at least one worker, the
collected list is a permutation of the expected outcomes. -/
theorem collected_perm_of_done {cfg : RunConfig} {s : PoolState}
    (hr : PoolReach cfg s) (hd : PoolDone s) (hn : 1 ≤ cfg.numWorkers) :
    s.collected.Perm (expectedOutcomes cfg) := by
  obtain ⟨h1, h2, h3, h4, h5, h6⟩ := poolInv_reach hr
  obtain ⟨hall, hcj, hts⟩ := h4 hd.1
  have hwne : s.workers ≠ [] := by
    intro hnil
    rw [hnil] at h5
    simp at h5
    omega
  obtain ⟨w, hw⟩ := List.exists_mem_of_ne_nil _ hwne
  have hdone : WStatus.done ∈ s.workers := (hall w hw) ▸ hw
  have hbuf : s.jobsBuf = [] := (h3 hdone).1
  have hfl : inFlight s.workers = [] := inFlight_all_done _ hall
  rw [← Multiset.coe_eq_coe]
  have : stateOutcomes cfg s = (s.collected : Multiset (Nat × CheckResult)) := by
    simp [stateOutcomes, hts, hbuf, hfl, hd.2]
  rw [← this, h1]

/-- The main goroutine can run its whole send loop: the `jobs` buffer has
capacity `len(hosts)`, so while buffered jobs plus unsent jobs fit the
capacity every send completes without blocking. -/
theorem steps_sendAll (cfg : RunConfig) :
    ∀ (pending buf : List Job) (ws : List WStatus)
      (col : List (Nat × CheckResult)),
      buf.length + pending.length ≤ cfg.hosts.length →
      Relation.ReflTransGen (PoolStep cfg)
        ⟨pending, buf, false, ws, [], false, col⟩
        ⟨[], buf ++ pending, false, ws, [], false, col⟩ := by
  intro pending
  induction pending with
  | nil =>
      intro buf ws col _
      rw [List.append_nil]
  | cons j rest ih =>
      intro buf ws col h
      refine Relation.ReflTransGen.head
        (PoolStep.send _ j rest rfl ?_) ?_
      · show buf.length < cfg.hosts.length
        simp only [List.length_cons] at h
        omega
      · rw [show buf ++ j :: rest = (buf ++ [j]) ++ rest by simp]
        refine ih (buf ++ [j]) ws col ?_
        simp only [List.length_append, List.length_cons, List.length_nil] at h ⊢
        omega

/-- Worker 0 can drain the whole jobs buffer once `jobs` is closed,
alternating receive / probe / push, while main receives each outcome. -/
theorem steps_drain (cfg : RunConfig) (hK : 0 < cfg.hosts.length) :
    ∀ (buf : List Job) (ws : List WStatus) (col : List (Nat × CheckResult)),
      Relation.ReflTransGen (PoolStep cfg)
        ⟨[], buf, true, .idle :: ws, [], false, col⟩
        ⟨[], [], true, .idle :: ws, [], false, col ++ buf.map (outcomeOf cfg)⟩ := by
  intro buf
  induction buf with
  | nil =>
      intro ws col
      rw [List.map_nil, List.append_nil]
  | cons j rest ih =>
      intro ws col
      refine Relation.ReflTransGen.head (PoolStep.take _ 0 j rest (by simp) rfl) ?_
      refine Relation.ReflTransGen.head (PoolStep.finish _ 0 j (by simp) ?_) ?_
      · show ([] : List (Nat × CheckResult)).length < cfg.hosts.length
        simpa using hK
      refine Relation.ReflTransGen.head
        (PoolStep.recv _ (outcomeOf cfg j) [] (by simp) (by simp)) ?_
      rw [List.map_cons,
        show col ++ (outcomeOf cfg j :: rest.map (outcomeOf cfg)) =
          (col ++ [outcomeOf cfg j]) ++ rest.map (outcomeOf cfg) by simp]
      exact ih ws (col ++ [outcomeOf cfg j])

/-- The idle worker after a block of retired workers. -/
theorem get_after_done (i m : Nat) :
    (List.replicate i WStatus.done ++
      WStatus.idle :: List.replicate m WStatus.idle)[i]? = some WStatus.idle := by
  induction i with
  | zero => simp
  | succ k ih => simpa [List.replicate_succ] using ih

/-- Retiring the idle worker that follows a block of retired workers. -/
theorem set_after_done (i m : Nat) :
    (List.replicate i WStatus.done ++
        WStatus.idle :: List.replicate m WStatus.idle).set i WStatus.done =
      List.replicate (i + 1) WStatus.done ++ List.replicate m WStatus.idle := by
  induction i with
  | zero => simp [List.replicate_succ]
  | succ k ih =>
      rw [List.replicate_succ, List.cons_append, List.set_cons_succ, ih]
      simp [List.replicate_succ]

/-- Once `jobs` is closed and drained, all still-idle workers can retire
one after the other. -/
theorem steps_exitAll (cfg : RunConfig) (col : List (Nat × CheckResult)) :
    ∀ (m i : Nat),
      Relation.ReflTransGen (PoolStep cfg)
        ⟨[], [], true, List.replicate i .done ++ List.replicate m .idle,
          [], false, col⟩
        ⟨[], [], true, List.replicate (i + m) .done, [], false, col⟩ := by
  intro m
  induction m with
  | zero =>
      intro i
      rw [List.replicate_zero, List.append_nil, Nat.add_zero]
  | succ m ih =>
      intro i
      rw [List.replicate_succ]
      refine Relation.ReflTransGen.head
        (PoolStep.exitW _ i (get_after_done i m) rfl rfl) ?_
      rw [set_after_done i m]
      rw [show i + (m + 1) = (i + 1) + m by omega]
      exact ih (i + 1)

/-- With at least one worker and a non-empty host list, a complete run
exists: all sends, close, worker 0 draining every job while main receives
every outcome, all workers retiring, `close(results)`. -/
theorem steps_fullRun (cfg : RunConfig) (hne : cfg.hosts ≠ [])
    (hn : 1 ≤ cfg.numWorkers) :
    ∃ s : PoolState, PoolReach cfg s ∧ PoolDone s := by
  have hK : 0 < cfg.hosts.length := List.length_pos.mpr hne
  obtain ⟨m, hm⟩ : ∃ m, cfg.numWorkers.toNat = m + 1 :=
    ⟨cfg.numWorkers.toNat - 1, by omega⟩
  have t1 := steps_sendAll cfg cfg.hosts.enum []
    (List.replicate cfg.numWorkers.toNat .idle) [] (by simp)
  have t2 := @PoolStep.closeJobs cfg
    ⟨[], cfg.hosts.enum, false, List.replicate cfg.numWorkers.toNat .idle,
      [], false, []⟩ rfl rfl
  have t3 := steps_drain cfg hK cfg.hosts.enum (List.replicate m .idle) []
  rw [← List.replicate_succ, ← hm] at t3
  have t4 := steps_exitAll cfg (cfg.hosts.enum.map (outcomeOf cfg)) (m + 1) 0
  simp only [List.replicate_zero, List.nil_append, Nat.zero_add] at t4
  rw [← hm] at t4
  have t5 := @PoolStep.closeResults cfg
    ⟨[], [], true, List.replicate cfg.numWorkers.toNat .done, [], false,
      cfg.hosts.enum.map (outcomeOf cfg)⟩
    rfl rfl (fun w hw => List.eq_of_mem_replicate hw) rfl
  exact ⟨_, (((t1.tail t2).trans t3).trans t4).tail t5, rfl, rfl⟩

/-- C1: for every non-empty host list and worker count at least 1, in
every completed run the collected outcome list is a permutation of the
expected indexed outcomes — exactly one Outcome per dispatched endpoint
(duplicates included), none dropped or produced twice, all received by
the collector before the run completes — and a completed run exists. -/
theorem worker_pool_exactly_once (cfg : RunConfig)
    (hne : cfg.hosts ≠ []) (hn : 1 ≤ cfg.numWorkers) :
    (∀ s : PoolState, PoolReach cfg s → PoolDone s →
      s.collected.Perm (expectedOutcomes cfg)
      ∧ s.collected.length = cfg.hosts.length)
    ∧ (∃ s : PoolState, PoolReach cfg s ∧ PoolDone s) := by
  constructor
  · intro s hr hd
    have hp := collected_perm_of_done hr hd hn
    refine ⟨hp, ?_⟩
    rw [hp.length_eq]
    simp [expectedOutcomes]
  · exact steps_fullRun cfg hne hn

/-- A concrete two-endpoint, one-worker configuration. -/
def cfgTwo : RunConfig :=
  { hosts := ["mirror-a.example", "mirror-b.example"]
    numWorkers := 1
    oracle := fun _ _ => .success 200 50000000 }

/-- Closed instance of `worker_pool_exactly_once` at a concrete
two-endpoint one-worker run, discharging both hypotheses. -/
theorem worker_pool_exactly_once_witness :
    ∃ s : PoolState, PoolReach cfgTwo s ∧ PoolDone s :=
  (worker_pool_exactly_once cfgTwo (by decide) (by decide)).2

/-- C10: with a zero (or negative) `-workers` value the run still cannot
deadlock: the buffered `jobs` channel (capacity `len(hosts)`) absorbs
every send, no worker ever runs, `close(results)` fires immediately after
the send loop, and the run terminates having collected nothing — the
summary reports success 0 of total 0 even for a non-empty host list.
Every reachable non-terminated state can still step (no deadlock), a
terminated state is reachable, and every terminated state has an empty
collection. -/
theorem zero_workers_run (cfg : RunConfig) (hn : cfg.numWorkers ≤ 0) :
    (∀ s : PoolState, PoolReach cfg s → PoolDone s →
      s.collected = []
      ∧ successCount (s.collected.map Prod.snd) = 0
      ∧ totalCount (s.collected.map Prod.snd) = 0)
    ∧ (∃ s : PoolState, PoolReach cfg s ∧ PoolDone s)
    ∧ (∀ s : PoolState, PoolReach cfg s → ¬ PoolDone s →
        ∃ s' : PoolState, PoolStep cfg s s') := by
  have hw0 : cfg.numWorkers.toNat = 0 := by omega
  refine ⟨?_, ?_, ?_⟩
  · intro s hr hd
    obtain ⟨h1, h2, h3, h4, h5, h6⟩ := poolInv_reach hr
    have hwnil : s.workers = [] := List.length_eq_zero.mp (by rw [h5]; exact hw0)
    obtain ⟨hrb, hcol, hlen⟩ := h6 hwnil
    exact ⟨hcol, by simp [hcol, successCount], by simp [hcol, totalCount]⟩
  · have t1 := steps_sendAll cfg cfg.hosts.enum []
      (List.replicate cfg.numWorkers.toNat .idle) [] (by simp)
    have t2 := @PoolStep.closeJobs cfg
      ⟨[], cfg.hosts.enum, false, List.replicate cfg.numWorkers.toNat .idle,
        [], false, []⟩ rfl rfl
    have t3 := @PoolStep.closeResults cfg
      ⟨[], cfg.hosts.enum, true, List.replicate cfg.numWorkers.toNat .idle,
        [], false, []⟩
      rfl rfl (fun w hw => by rw [hw0] at hw; simp at hw) rfl
    exact ⟨_, (t1.tail t2).tail t3, rfl, rfl⟩
  · intro s hr hnd
    obtain ⟨h1, h2, h3, h4, h5, h6⟩ := poolInv_reach hr
    have hwnil : s.workers = [] := List.length_eq_zero.mp (by rw [h5]; exact hw0)
    obtain ⟨hrb, hcol, hlen⟩ := h6 hwnil
    by_cases hts : s.toSend = []
    · by_cases hc : s.jobsClosed = true
      · by_cases hrc : s.resultsClosed = true
        · exact absurd ⟨hrc, hrb⟩ hnd
        · exact ⟨_, PoolStep.closeResults s hts hc
            (by rw [hwnil]; simp) (by simpa using hrc)⟩
      · exact ⟨_, PoolStep.closeJobs s hts (by simpa using hc)⟩
    · obtain ⟨j, rest, hjr⟩ := List.exists_cons_of_ne_nil hts
      refine ⟨_, PoolStep.send s j rest hjr ?_⟩
      rw [hjr] at hlen
      simp only [List.length_cons] at hlen
      omega

/-- A concrete two-endpoint, zero-worker configuration. -/
def cfgZero : RunConfig :=
  { hosts := ["mirror-a.example", "mirror-b.example"]
    numWorkers := 0
    oracle := fun _ _ => .success 200 50000000 }

/-- Closed instance of `zero_workers_run` at a concrete two-endpoint
zero-worker run, discharging the non-positive worker-count hypothesis. -/
theorem zero_workers_run_witness :
    ∃ s : PoolState, PoolReach cfgZero s ∧ PoolDone s :=
  (zero_workers_run cfgZero (by decide)).2.1
